import Mathlib

/-!
Verification of the sharded key-value microbenchmark (src/python/bench.py)
against its natural-language specification.

The embedding models:
* the splitmix64 generator (`splitmix64`, bench.py lines 18–26) as
  `sm64_next` / `sm64_state` / `sm64_out`, machine integers as `ℕ` with the
  source's explicit 64-bit masking;
* the sharded store as a function `Store := ℕ → ℕ → Option ℕ`
  (shard index → key → stored counter), with Python `dict.get(k, 0)` as `dget`
  and dict assignment as `dset`/`sset`;
* the worker loops of both execution models (`worker_thread`, lines 29–41, and
  `worker_process`, lines 44–60), with Python's `ZeroDivisionError` on `% 0`
  and `// 0` made explicit through `Except String` (`pymod`, `pydiv`);
* the configuration dispatch and result-record assembly of `main`
  (lines 63–109) as `mainRun`.  Wall-clock timing, memory sampling and JSON
  serialization are external collaborators excluded by the spec and are not
  modelled; the record fields derived from them are omitted.

Python floats (`read_ratio`) are modelled as `ℚ`; Python's `int()` truncation
toward zero is `pyInt`.  The per-shard locks of the threads model only
serialize individual map accesses; single-worker runs and the process model
are sequential, which is what the claims below quantify over.
-/

/-- 2^64, the modulus of all splitmix64 arithmetic. -/
def U64 : ℕ := 18446744073709551616

/-- The xor-with-own-right-shift step `z ^ (z >> k)` used by the mixer. -/
def xshift (z k : ℕ) : ℕ := z ^^^ (z >>> k)

/-- One step of the code's generator (bench.py 21–26): state update
`x = (x + 0x9E3779B97F4A7C15) & ((1 << 64) - 1)` followed by the three
xor-shift/multiply mixing rounds, each multiply masked with `& ((1 << 64) - 1)`
exactly as in the source.  Returns (yielded value, new state). -/
def sm64_next (x : ℕ) : ℕ × ℕ :=
  let x1 := (x + 0x9E3779B97F4A7C15) &&& (U64 - 1)
  let z1 := (xshift x1 30) * 0xBF58476D1CE4E5B9 &&& (U64 - 1)
  let z2 := (xshift z1 27) * 0x94D049BB133111EB &&& (U64 - 1)
  let z3 := xshift z2 31
  (z3, x1)

/-- Generator initialisation (bench.py line 19): `x = seed & ((1 << 64) - 1)`. -/
def sm64_init (seed : ℕ) : ℕ := seed &&& (U64 - 1)

/-- State of the code's generator after `n` yields. -/
def sm64_state (seed : ℕ) : ℕ → ℕ
  | 0 => sm64_init seed
  | n + 1 => (sm64_next (sm64_state seed n)).2

/-- The `n`-th (0-indexed) value yielded by `splitmix64 seed`. -/
def sm64_out (seed n : ℕ) : ℕ := (sm64_next (sm64_state seed n)).1

/-- Reference splitmix64 step following the spec's words (§4.1): add the odd
constant mod 2^64; take `z` as the updated state; `z ^= z >> 30`;
`z *= 0xBF58476D1CE4E5B9` (mod 2^64); `z ^= z >> 27`;
`z *= 0x94D049BB133111EB` (mod 2^64); `z ^= z >> 31`; return `z` and the
updated counter. -/
def spec_sm64_next (x : ℕ) : ℕ × ℕ :=
  let x1 := (x + 0x9E3779B97F4A7C15) % U64
  let a := x1 ^^^ (x1 >>> 30)
  let b := a * 0xBF58476D1CE4E5B9 % U64
  let c := b ^^^ (b >>> 27)
  let d := c * 0x94D049BB133111EB % U64
  (d ^^^ (d >>> 31), x1)

/-- Reference state sequence per the spec (seed reduced mod 2^64). -/
def spec_sm64_state (seed : ℕ) : ℕ → ℕ
  | 0 => seed % U64
  | n + 1 => (spec_sm64_next (spec_sm64_state seed n)).2

/-- Reference output sequence per the spec. -/
def spec_sm64_out (seed n : ℕ) : ℕ := (spec_sm64_next (spec_sm64_state seed n)).1

/-- Python `a % b`: raises `ZeroDivisionError` when `b = 0`. -/
def pymod (a b : ℕ) : Except String ℕ :=
  if b = 0 then .error "ZeroDivisionError" else .ok (a % b)

/-- Python `a // b`: raises `ZeroDivisionError` when `b = 0`. -/
def pydiv (a b : ℕ) : Except String ℕ :=
  if b = 0 then .error "ZeroDivisionError" else .ok (a / b)

/-- Python `int()` applied to an exact rational: truncation toward zero. -/
def pyInt (q : ℚ) : ℤ := if 0 ≤ q then ⌊q⌋ else ⌈q⌉

/-- One Python dict mapping integer keys to integer counters. -/
abbrev Dict := ℕ → Option ℕ

/-- The sharded store: shard index → that shard's dict. -/
abbrev Store := ℕ → Dict

/-- `d.get(k, 0)` (bench.py lines 38, 41, 57, 59). -/
def dget (d : Dict) (k : ℕ) : ℕ := (d k).getD 0

/-- Dict assignment `d[k] = v`. -/
def dset (d : Dict) (k v : ℕ) : Dict := fun k2 => if k2 = k then some v else d k2

/-- Store update `shards[s][k] = v`. -/
def sset (st : Store) (s k v : ℕ) : Store :=
  fun s2 => if s2 = s then dset (st s2) k v else st s2

/-- The freshly constructed store `[dict() for _ in range(shards)]`. -/
def emptyStore : Store := fun _ _ => none

/-- Prefill over an explicit list of keys: `shards[i % S][i] = 0` for each
`i`, left to right (bench.py lines 48–49 and 80–81). -/
def prefillListE (S : ℕ) : List ℕ → Store → Except String Store
  | [], st => .ok st
  | i :: rest, st =>
    match pymod i S with
    | .error e => .error e
    | .ok s => prefillListE S rest (sset st s i 0)

/-- `for i in range(keys): shards[i % S][i] = 0`. -/
def prefillE (S K : ℕ) : Except String Store := prefillListE S (List.range K) emptyStore

/-- One iteration of either worker loop (bench.py 32–41 / 52–59):
`k = next(rnd) % keys` (raising on `keys = 0`), `r = next(rnd) % 1000`,
`s = k % S` (raising on `S = 0`); if `r < reads` a read
(`shards[s].get(k, 0)`, store unchanged), else the write
`shards[s][k] = shards[s].get(k, 0) + 1`.  Returns the store and the
advanced generator state. -/
def iterStepE (S keys : ℕ) (reads : ℤ) (st : Store) (x : ℕ) :
    Except String (Store × ℕ) :=
  let v1 := (sm64_next x).1
  let x1 := (sm64_next x).2
  let v2 := (sm64_next x1).1
  let x2 := (sm64_next x1).2
  match pymod v1 keys with
  | .error e => .error e
  | .ok k =>
    match pymod k S with
    | .error e => .error e
    | .ok s =>
      if ((v2 % 1000 : ℕ) : ℤ) < reads then .ok (st, x2)
      else .ok (sset st s k (dget (st s) k + 1), x2)

/-- The `for _ in range(per)` loop shared by both worker bodies. -/
def worker_loopE (S keys : ℕ) (reads : ℤ) : ℕ → Store → ℕ → Except String Store
  | 0, st, _ => .ok st
  | n + 1, st, x =>
    match iterStepE S keys reads st x with
    | .error e => .error e
    | .ok stx => worker_loopE S keys reads n stx.1 stx.2

/-- `worker_thread` (bench.py 29–41): operates on the given (shared) store,
with its private generator seeded `seed + tid` and
`reads = int(read_ratio * 1000)`. -/
def worker_thread_runE (S keys per : ℕ) (rho : ℚ) (seed tid : ℕ) (st : Store) :
    Except String Store :=
  worker_loopE S keys (pyInt (rho * 1000)) per st (sm64_init (seed + tid))

/-- `worker_process` (bench.py 44–60): builds and prefills its own private
store, runs the identical loop seeded `seed + pid`, returns the final store
together with the function's return value 0. -/
def worker_process_runE (keys per : ℕ) (rho : ℚ) (seed pid S : ℕ) :
    Except String (Store × ℕ) :=
  match prefillE S keys with
  | .error e => .error e
  | .ok st =>
    match worker_loopE S keys (pyInt (rho * 1000)) per st (sm64_init (seed + pid)) with
    | .error e => .error e
    | .ok st2 => .ok (st2, 0)

/-- The deterministic fields of the result record printed by `main`
(bench.py 98–109).  `runtime`, `duration_ms` and `rss_bytes` come from the
excluded external collaborators (interpreter version, wall clock, memory
sampling) and are omitted. -/
structure BenchResult where
  model : String
  threads : ℕ
  iterations : ℕ
  keys : ℕ
  rho : ℚ
  seed : ℕ
deriving DecidableEq

/-- `res["iterations"] = per * threads` with the other configuration fields
copied through (bench.py 98–108). -/
def mkResult (model : String) (threads per keys : ℕ) (rho : ℚ) (seed : ℕ) :
    BenchResult :=
  ⟨model, threads, per * threads, keys, rho, seed⟩

/-- Observable outcome of one invocation: either the result record printed to
stdout with exit status 0, or a fatal abort (uncaught exception or
`sys.exit(1)`) with non-zero status, a diagnostic on stderr, and no record. -/
inductive MainOutcome where
  | success (res : BenchResult)
  | fatal (code : ℕ) (msg : String)
deriving DecidableEq

/-- First error among the pool results, if any (`pool.map` re-raises a worker
exception; all workers fail alike here, so picking the first is faithful). -/
def firstError : List (Except String (Store × ℕ)) → Option String
  | [] => none
  | .error e :: _ => some e
  | .ok _ :: rest => firstError rest

/-- `main` (bench.py 63–109): compute `per = iterations // threads` (raising
on `threads = 0`), dispatch on the model string, and emit the record.  In the
threads branch the main thread prefills the shared store itself (so a prefill
error aborts the run), then joins the workers; a worker thread that raises
(e.g. on `keys = 0`) prints its traceback and dies, but Python lets the main
thread continue, so worker errors do not change the outcome, and the printed
record does not depend on the store.  In the processes branch `pool.map`
re-raises any worker exception, aborting before the record is printed. -/
def mainRun (model : String) (threads iterations keys : ℕ) (rho : ℚ)
    (seed S : ℕ) : MainOutcome :=
  match pydiv iterations threads with
  | .error e => .fatal 1 e
  | .ok per =>
    if model = "threads" then
      match prefillE S keys with
      | .error e => .fatal 1 e
      | .ok _ => .success (mkResult model threads per keys rho seed)
    else if model = "processes" then
      match firstError ((List.range threads).map
          (fun i => worker_process_runE keys per rho seed i S)) with
      | some e => .fatal 1 e
      | none => .success (mkResult model threads per keys rho seed)
    else .fatal 1 "unknown model"

/-- `true` exactly when a result record is written to standard output. -/
def producesRecord : MainOutcome → Bool
  | .success _ => true
  | .fatal _ _ => false

/-- Process exit status of the outcome. -/
def exitCode : MainOutcome → ℕ
  | .success _ => 0
  | .fatal c _ => c

/-- Kind of a workload operation (§4.2 of the spec). -/
inductive OpKind where
  | read
  | write
deriving DecidableEq

/-- Reference operation derivation following the spec's words (§4.2): the
`n`-th operation of the worker stream seeded `seed0` takes its key from draw
`2n` (`key = draw() mod K`) and its kind from draw `2n + 1`
(`r = draw() mod 1000`, Read iff `r < floor(rho * 1000)`). -/
def specOp (seed0 keys : ℕ) (rho : ℚ) (n : ℕ) : ℕ × OpKind :=
  (sm64_out seed0 (2 * n) % keys,
   if ((sm64_out seed0 (2 * n + 1) % 1000 : ℕ) : ℤ) < ⌊rho * 1000⌋ then OpKind.read
   else OpKind.write)

/-- Code-side operation at index `n`, with the already-truncated `reads`
threshold the workers compute. -/
def opAt (seed0 keys : ℕ) (reads : ℤ) (n : ℕ) : ℕ × OpKind :=
  (sm64_out seed0 (2 * n) % keys,
   if ((sm64_out seed0 (2 * n + 1) % 1000 : ℕ) : ℤ) < reads then OpKind.read
   else OpKind.write)

/-- Applying one operation to the store per the spec's store contract (§4.3):
a read leaves the store unchanged, a write increments the counter of the key
in shard `key mod S`, inserting at base 0 if absent. -/
def specApply (S : ℕ) (st : Store) (op : ℕ × OpKind) : Store :=
  match op.2 with
  | OpKind.read => st
  | OpKind.write => sset st (op.1 % S) op.1 (dget (st (op.1 % S)) op.1 + 1)

/-- The store's key population is exactly the prefilled one: shard `s` holds
key `k` iff `k < keys` and `s = k % S`. -/
def domOK (S keys : ℕ) (st : Store) : Prop :=
  ∀ s k, (st s k).isSome = true ↔ (k < keys ∧ s = k % S)

lemma and_u64_eq_mod (x : ℕ) : x &&& (U64 - 1) = x % U64 := by
  have h : U64 = 2 ^ 64 := by norm_num [U64]
  rw [h]
  exact Nat.and_pow_two_sub_one_eq_mod x 64

lemma sm64_next_eq_spec (x : ℕ) : sm64_next x = spec_sm64_next x := by
  simp only [sm64_next, spec_sm64_next, xshift, and_u64_eq_mod]

lemma sm64_state_eq_spec (seed n : ℕ) :
    sm64_state seed n = spec_sm64_state seed n := by
  induction n with
  | zero => simp [sm64_state, spec_sm64_state, sm64_init, and_u64_eq_mod]
  | succ n ih => simp [sm64_state, spec_sm64_state, ih, sm64_next_eq_spec]

/-- C2: each PRNG step adds 0x9E3779B97F4A7C15 to the 64-bit state mod 2^64,
mixes the new state with the xor-shift/multiply rounds
(`>> 30`, `* 0xBF58476D1CE4E5B9`, `>> 27`, `* 0x94D049BB133111EB`, `>> 31`,
multiplications mod 2^64) and outputs the mixed value; for every seed the
generated sequence equals this reference splitmix64 sequence, state and
output alike. -/
theorem splitmix64_matches_reference (seed n : ℕ) :
    sm64_out seed n = spec_sm64_out seed n ∧
    sm64_state seed n = spec_sm64_state seed n := by
  refine ⟨?_, sm64_state_eq_spec seed n⟩
  simp [sm64_out, spec_sm64_out, sm64_next_eq_spec, sm64_state_eq_spec]

lemma prefillListE_append (S : ℕ) (l1 l2 : List ℕ) (st : Store) :
    prefillListE S (l1 ++ l2) st =
      match prefillListE S l1 st with
      | .error e => .error e
      | .ok st1 => prefillListE S l2 st1 := by
  induction l1 generalizing st with
  | nil => simp [prefillListE]
  | cons i l1 ih =>
    cases h : pymod i S with
    | error e => simp [prefillListE, h]
    | ok s => simp [prefillListE, h, ih]

lemma prefillE_ok (S K : ℕ) (hS : 1 ≤ S) :
    prefillE S K = .ok (fun s k => if k < K ∧ s = k % S then some 0 else none) := by
  induction K with
  | zero =>
    unfold prefillE prefillListE
    simp [List.range_zero]
    funext s k
    simp [emptyStore]
  | succ K ih =>
    unfold prefillE at ih ⊢
    rw [List.range_succ, prefillListE_append, ih]
    have hmod : pymod K S = .ok (K % S) := by
      simp [pymod, Nat.pos_iff_ne_zero.mp hS]
    simp only [prefillListE, hmod]
    congr 1
    funext s k
    by_cases hs : s = K % S
    · subst hs
      by_cases hk : k = K
      · subst hk
        simp [sset, dset, Nat.lt_succ_self]
      · have hiff : k < K + 1 ↔ k < K := by omega
        simp [sset, dset, hk, hiff]
    · by_cases hk : k = K
      · subst hk
        simp [sset, dset, hs, Nat.lt_irrefl]
      · have hiff : k < K + 1 ↔ k < K := by omega
        simp [sset, dset, hs, hk, hiff]

lemma iterStepE_ok (S keys : ℕ) (reads : ℤ) (st : Store) (x : ℕ)
    (hS : 1 ≤ S) (hK : 1 ≤ keys) :
    iterStepE S keys reads st x =
      .ok (specApply S st
             ((sm64_next x).1 % keys,
              if (((sm64_next (sm64_next x).2).1 % 1000 : ℕ) : ℤ) < reads then
                OpKind.read
              else OpKind.write),
           (sm64_next (sm64_next x).2).2) := by
  have hKne : keys ≠ 0 := Nat.pos_iff_ne_zero.mp hK
  have hSne : S ≠ 0 := Nat.pos_iff_ne_zero.mp hS
  simp only [iterStepE, pymod, hKne, hSne, if_false]
  split
  · rename_i h
    simp [specApply, h]
  · rename_i h
    simp [specApply, h]

lemma worker_loopE_zero (S keys : ℕ) (reads : ℤ) (st : Store) (x : ℕ) :
    worker_loopE S keys reads 0 st x = .ok st := rfl

/-- C4: prefill inserts exactly the keys `0 .. K-1`, each with value 0, key
`i` going to shard `i % S`; a run with zero per-worker iterations leaves the
store in exactly that prefilled state in both execution models. -/
theorem prefill_exact (S K : ℕ) (hS : 1 ≤ S) :
    prefillE S K = .ok (fun s k => if k < K ∧ s = k % S then some 0 else none) ∧
    (∀ (keys : ℕ) (rho : ℚ) (seed tid : ℕ) (st : Store),
       worker_thread_runE S keys 0 rho seed tid st = .ok st) ∧
    (∀ (keys : ℕ) (rho : ℚ) (seed pid : ℕ),
       worker_process_runE keys 0 rho seed pid S =
         .ok ((fun s k => if k < keys ∧ s = k % S then some 0 else none), 0)) := by
  refine ⟨prefillE_ok S K hS, fun keys rho seed tid st => rfl, fun keys rho seed pid => ?_⟩
  simp [worker_process_runE, prefillE_ok S keys hS, worker_loopE]

theorem prefill_exact_witness :
    (1 ≤ 2) ∧
    (prefillE 2 3 = .ok (fun s k => if k < 3 ∧ s = k % 2 then some 0 else none) ∧
     (∀ (keys : ℕ) (rho : ℚ) (seed tid : ℕ) (st : Store),
        worker_thread_runE 2 keys 0 rho seed tid st = .ok st) ∧
     (∀ (keys : ℕ) (rho : ℚ) (seed pid : ℕ),
        worker_process_runE keys 0 rho seed pid 2 =
          .ok ((fun s k => if k < keys ∧ s = k % 2 then some 0 else none), 0))) :=
  ⟨by decide, prefill_exact 2 3 (by decide)⟩

lemma sset_other_shard (st : Store) (s k v s2 : ℕ) (h : s2 ≠ s) :
    sset st s k v s2 = st s2 := by
  simp [sset, h]

/-- C3: for every key and every shard count `S ≥ 1`, each access routes the
key to shard `key % S` and to no other: prefill stores key `i` only in shard
`i % S` (both models prefill identically), and one loop iteration — shared
verbatim by both execution models — leaves every shard other than
`key % S` untouched, with `key` the first draw reduced `% keys`; so the
routing function is the same at prefill time and at every subsequent access
and a key's shard never changes within a run. -/
theorem routing_consistent (S K keys : ℕ) (reads : ℤ) (st : Store) (x : ℕ)
    (hS : 1 ≤ S) (hK : 1 ≤ keys) :
    (∀ st0, prefillE S K = .ok st0 → ∀ s i, st0 s i ≠ none → s = i % S) ∧
    (∀ r, iterStepE S keys reads st x = .ok r →
       ∀ s2, s2 ≠ ((sm64_next x).1 % keys) % S → r.1 s2 = st s2) := by
  constructor
  · intro st0 h0 s i hne
    rw [prefillE_ok S K hS] at h0
    injection h0 with h0
    rw [← h0] at hne
    by_cases hc : i < K ∧ s = i % S
    · exact hc.2
    · simp [hc] at hne
  · intro r hr s2 hs2
    rw [iterStepE_ok S keys reads st x hS hK] at hr
    injection hr with hr
    rw [← hr]
    simp only [specApply]
    split
    · rfl
    · exact sset_other_shard st _ _ _ s2 hs2

theorem routing_consistent_witness :
    (1 ≤ 2 ∧ 1 ≤ 5) ∧
    ((∀ st0, prefillE 2 3 = .ok st0 → ∀ s i, st0 s i ≠ none → s = i % 2) ∧
     (∀ r, iterStepE 2 5 500 emptyStore 9 = .ok r →
        ∀ s2, s2 ≠ ((sm64_next 9).1 % 5) % 2 → r.1 s2 = emptyStore s2)) :=
  ⟨⟨by decide, by decide⟩,
   routing_consistent 2 3 5 500 emptyStore 9 (by decide) (by decide)⟩

lemma worker_loopE_succ (S keys : ℕ) (reads : ℤ) (n : ℕ) (st : Store) (x : ℕ) :
    worker_loopE S keys reads (n + 1) st x =
      match iterStepE S keys reads st x with
      | Except.error e => Except.error e
      | Except.ok stx => worker_loopE S keys reads n stx.1 stx.2 := rfl

lemma worker_loopE_spec (S keys : ℕ) (reads : ℤ) (hS : 1 ≤ S) (hK : 1 ≤ keys)
    (seed0 : ℕ) :
    ∀ (n m : ℕ) (st : Store),
      worker_loopE S keys reads n st (sm64_state seed0 (2 * m)) =
        .ok (((List.range n).map (fun i => opAt seed0 keys reads (m + i))).foldl
               (specApply S) st) := by
  intro n
  induction n with
  | zero =>
    intro m st
    simp [worker_loopE, List.range_zero]
  | succ n ih =>
    intro m st
    have e1 : (sm64_next (sm64_state seed0 (2 * m))).1 = sm64_out seed0 (2 * m) := rfl
    have e2 : (sm64_next (sm64_state seed0 (2 * m))).2 = sm64_state seed0 (2 * m + 1) := rfl
    have e3 : (sm64_next (sm64_state seed0 (2 * m + 1))).1 = sm64_out seed0 (2 * m + 1) := rfl
    have e4 : (sm64_next (sm64_state seed0 (2 * m + 1))).2 = sm64_state seed0 (2 * m + 2) := rfl
    have hstep := iterStepE_ok S keys reads st (sm64_state seed0 (2 * m)) hS hK
    rw [e1, e2, e3, e4] at hstep
    have h22 : 2 * m + 2 = 2 * (m + 1) := by ring
    rw [h22] at hstep
    rw [worker_loopE_succ, hstep]
    show worker_loopE S keys reads n
        (specApply S st (opAt seed0 keys reads m)) (sm64_state seed0 (2 * (m + 1))) = _
    rw [ih (m + 1) (specApply S st (opAt seed0 keys reads m))]
    rw [List.range_succ_eq_map, List.map_cons, List.map_map, List.foldl_cons]
    have hcomp : ((fun i => opAt seed0 keys reads (m + i)) ∘ Nat.succ) =
        fun i => opAt seed0 keys reads (m + 1 + i) := by
      funext i
      simp only [Function.comp_apply]
      have : m + Nat.succ i = m + 1 + i := by omega
      rw [this]
    rw [hcomp]
    norm_num

lemma pyInt_lt_iff (q : ℚ) (r : ℕ) : ((r : ℤ) < pyInt q) ↔ ((r : ℤ) < ⌊q⌋) := by
  unfold pyInt
  split
  · exact Iff.rfl
  · rename_i hq
    have hqle : q ≤ 0 := le_of_lt (lt_of_not_le hq)
    have hceil : ⌈q⌉ ≤ 0 := Int.ceil_le.mpr (by exact_mod_cast hqle)
    have hfloor : ⌊q⌋ ≤ ⌈q⌉ := Int.floor_le_ceil q
    have hr : (0 : ℤ) ≤ (r : ℤ) := Int.ofNat_nonneg r
    constructor
    · intro h
      omega
    · intro h
      omega

lemma opAt_eq_specOp (seed0 keys : ℕ) (rho : ℚ) (n : ℕ) :
    opAt seed0 keys (pyInt (rho * 1000)) n = specOp seed0 keys rho n := by
  unfold opAt specOp
  rw [if_congr (pyInt_lt_iff (rho * 1000) (sm64_out seed0 (2 * n + 1) % 1000)) rfl rfl]

/-- C1: in both execution models each worker's operations come from its
private splitmix64 stream seeded `seed + worker_index`, two draws per
iteration: the whole run equals folding the spec's operation sequence
(`specOp`: key from draw `2n` reduced `% keys`, kind from draw `2n + 1`
reduced `% 1000` and compared against `floor(rho * 1000)`) over the store
with the spec's read/write semantics (`specApply`). -/
theorem two_draw_refinement (S keys per : ℕ) (rho : ℚ) (seed tid : ℕ) (st : Store)
    (hS : 1 ≤ S) (hK : 1 ≤ keys) :
    worker_thread_runE S keys per rho seed tid st =
      .ok (((List.range per).map (specOp (seed + tid) keys rho)).foldl
             (specApply S) st) ∧
    worker_process_runE keys per rho seed tid S =
      .ok ((((List.range per).map (specOp (seed + tid) keys rho)).foldl
              (specApply S)
              (fun s k => if k < keys ∧ s = k % S then some 0 else none)), 0) := by
  have hmap : ∀ st0 : Store,
      ((List.range per).map
         (fun i => opAt (seed + tid) keys (pyInt (rho * 1000)) (0 + i))).foldl
        (specApply S) st0 =
      ((List.range per).map (specOp (seed + tid) keys rho)).foldl (specApply S) st0 := by
    intro st0
    have hfun : (fun i => opAt (seed + tid) keys (pyInt (rho * 1000)) (0 + i)) =
        specOp (seed + tid) keys rho := by
      funext i
      rw [Nat.zero_add, opAt_eq_specOp]
    rw [hfun]
  have hinit : sm64_init (seed + tid) = sm64_state (seed + tid) (2 * 0) := rfl
  constructor
  · unfold worker_thread_runE
    rw [hinit, worker_loopE_spec S keys (pyInt (rho * 1000)) hS hK (seed + tid) per 0 st,
        hmap st]
  · have hloop := worker_loopE_spec S keys (pyInt (rho * 1000)) hS hK (seed + tid) per 0
      (fun s k => if k < keys ∧ s = k % S then some 0 else none)
    rw [← hinit] at hloop
    simp only [worker_process_runE, prefillE_ok S keys hS, hloop, hmap]

theorem two_draw_refinement_witness :
    (1 ≤ 2 ∧ 1 ≤ 5) ∧
    (worker_thread_runE 2 5 3 (1 / 2) 42 1 emptyStore =
       .ok (((List.range 3).map (specOp (42 + 1) 5 (1 / 2))).foldl
              (specApply 2) emptyStore) ∧
     worker_process_runE 5 3 (1 / 2) 42 1 2 =
       .ok ((((List.range 3).map (specOp (42 + 1) 5 (1 / 2))).foldl
               (specApply 2)
               (fun s k => if k < 5 ∧ s = k % 2 then some 0 else none)), 0)) :=
  ⟨⟨by decide, by decide⟩,
   two_draw_refinement 2 5 3 (1 / 2) 42 1 emptyStore (by decide) (by decide)⟩

lemma pyInt_one_thousand : pyInt ((1 : ℚ) * 1000) = 1000 := by
  norm_num [pyInt]

lemma pyInt_zero_thousand : pyInt ((0 : ℚ) * 1000) = 0 := by
  norm_num [pyInt]

lemma worker_loopE_all_reads (S keys : ℕ) (hS : 1 ≤ S) (hK : 1 ≤ keys) :
    ∀ (n : ℕ) (st : Store) (x : ℕ),
      worker_loopE S keys 1000 n st x = .ok st := by
  intro n
  induction n with
  | zero =>
    intro st x
    rfl
  | succ n ih =>
    intro st x
    have hlt : (((sm64_next (sm64_next x).2).1 % 1000 : ℕ) : ℤ) < 1000 := by
      exact_mod_cast Nat.mod_lt _ (by norm_num)
    have hstep := iterStepE_ok S keys 1000 st x hS hK
    rw [if_pos hlt] at hstep
    have hread : specApply S st ((sm64_next x).1 % keys, OpKind.read) = st := rfl
    rw [hread] at hstep
    rw [worker_loopE_succ, hstep]
    exact ih st (sm64_next (sm64_next x).2).2

/-- C7: with `read_ratio = 1.0` every generated operation is a read (every
second draw `% 1000` is below the threshold 1000), reads never modify the
store, and after any number of iterations the store equals its initial state —
for the process model, the freshly prefilled store. -/
theorem reads_only_preserve (S keys per seed tid : ℕ) (st : Store)
    (hS : 1 ≤ S) (hK : 1 ≤ keys) :
    worker_thread_runE S keys per 1 seed tid st = .ok st ∧
    worker_process_runE keys per 1 seed tid S =
      .ok ((fun s k => if k < keys ∧ s = k % S then some 0 else none), 0) := by
  constructor
  · unfold worker_thread_runE
    rw [pyInt_one_thousand]
    exact worker_loopE_all_reads S keys hS hK per st (sm64_init (seed + tid))
  · simp only [worker_process_runE, prefillE_ok S keys hS, pyInt_one_thousand,
      worker_loopE_all_reads S keys hS hK per]

theorem reads_only_preserve_witness :
    (1 ≤ 2 ∧ 1 ≤ 10) ∧
    (worker_thread_runE 2 10 3 1 1 0 emptyStore = .ok emptyStore ∧
     worker_process_runE 10 3 1 1 0 2 =
       .ok ((fun s k => if k < 10 ∧ s = k % 2 then some 0 else none), 0)) :=
  ⟨⟨by decide, by decide⟩,
   reads_only_preserve 2 10 3 1 0 emptyStore (by decide) (by decide)⟩

lemma worker_loopE_writes_key0 (S : ℕ) (hS : 1 ≤ S) :
    ∀ (n : ℕ) (st : Store) (x : ℕ),
      worker_loopE S 1 0 n st x =
        .ok (fun s k => if s = 0 ∧ k = 0 ∧ n ≠ 0 then some (dget (st 0) 0 + n)
             else st s k) := by
  intro n
  induction n with
  | zero =>
    intro st x
    have hid : (fun s k => if s = 0 ∧ k = 0 ∧ (0 : ℕ) ≠ 0 then
        some (dget (st 0) 0 + 0) else st s k) = st := by
      funext s k
      simp
    rw [worker_loopE_zero, hid]
  | succ n ih =>
    intro st x
    have hnlt : ¬ ((((sm64_next (sm64_next x).2).1 % 1000 : ℕ) : ℤ) < 0) :=
      Int.not_lt.mpr (Int.ofNat_nonneg _)
    have hstep := iterStepE_ok S 1 0 st x hS (le_refl 1)
    rw [if_neg hnlt] at hstep
    have hk0 : (sm64_next x).1 % 1 = 0 := Nat.mod_one _
    rw [hk0] at hstep
    have hwrite : specApply S st (0, OpKind.write) =
        sset st (0 % S) 0 (dget (st (0 % S)) 0 + 1) := rfl
    rw [hwrite, Nat.zero_mod] at hstep
    rw [worker_loopE_succ, hstep]
    show worker_loopE S 1 0 n (sset st 0 0 (dget (st 0) 0 + 1))
        ((sm64_next (sm64_next x).2).2) = _
    rw [ih]
    congr 1
    funext s k
    have hd : dget (sset st 0 0 (dget (st 0) 0 + 1) 0) 0 = dget (st 0) 0 + 1 := by
      simp [sset, dset, dget]
    by_cases hs : s = 0
    · subst hs
      by_cases hk : k = 0
      · subst hk
        by_cases hn : n = 0
        · subst hn
          simp [sset, dset, dget]
        · simp only [hn, hd]
          simp [hn]
          omega
      · simp [sset, dset, hk]
    · simp [sset, dset, hs]

/-- C6: with `read_ratio = 0` every generated operation is a write, and each
write increments the target key's counter by exactly one, inserting at base 0
if absent (first conjunct: the per-iteration step, shared by both models, is
exactly that store update for every key); consequently a single worker whose
draws all target the same key — `keys = 1`, so every key draw reduces to
key 0 — leaves that key with its initial count plus `per`, and in the
process model (prefilled at 0) with exactly `per`. -/
theorem writes_only_increment (S per seed tid : ℕ) (st : Store) (hS : 1 ≤ S) :
    (∀ (keys : ℕ) (st2 : Store) (x : ℕ), 1 ≤ keys →
       iterStepE S keys (pyInt ((0 : ℚ) * 1000)) st2 x =
         .ok (sset st2 (((sm64_next x).1 % keys) % S) ((sm64_next x).1 % keys)
                (dget (st2 (((sm64_next x).1 % keys) % S)) ((sm64_next x).1 % keys) + 1),
              (sm64_next (sm64_next x).2).2)) ∧
    worker_thread_runE S 1 per 0 seed tid st =
      .ok (fun s k => if s = 0 ∧ k = 0 ∧ per ≠ 0 then some (dget (st 0) 0 + per)
           else st s k) ∧
    worker_process_runE 1 per 0 seed tid S =
      .ok ((fun s k => if s = 0 ∧ k = 0 then some per else none), 0) := by
  refine ⟨?_, ?_, ?_⟩
  · intro keys st2 x hK
    rw [pyInt_zero_thousand]
    have hnlt : ¬ ((((sm64_next (sm64_next x).2).1 % 1000 : ℕ) : ℤ) < 0) :=
      Int.not_lt.mpr (Int.ofNat_nonneg _)
    have hstep := iterStepE_ok S keys 0 st2 x hS hK
    rw [if_neg hnlt] at hstep
    rw [hstep]
    rfl
  · unfold worker_thread_runE
    rw [pyInt_zero_thousand,
        worker_loopE_writes_key0 S hS per st (sm64_init (seed + tid))]
  · simp only [worker_process_runE, prefillE_ok S 1 hS, pyInt_zero_thousand,
      worker_loopE_writes_key0 S hS per]
    congr 2
    funext s k
    by_cases hk : k = 0
    · subst hk
      by_cases hs : s = 0
      · subst hs
        by_cases hp : per = 0
        · subst hp
          simp [dget, Nat.zero_mod]
        · simp [hp, dget, Nat.zero_mod]
      · simp [hs, Nat.zero_mod]
    · have hklt : ¬ k < 1 := by omega
      simp [hk, hklt]

theorem writes_only_increment_witness :
    (1 ≤ 1) ∧
    ((∀ (keys : ℕ) (st2 : Store) (x : ℕ), 1 ≤ keys →
        iterStepE 1 keys (pyInt ((0 : ℚ) * 1000)) st2 x =
          .ok (sset st2 (((sm64_next x).1 % keys) % 1) ((sm64_next x).1 % keys)
                 (dget (st2 (((sm64_next x).1 % keys) % 1)) ((sm64_next x).1 % keys) + 1),
               (sm64_next (sm64_next x).2).2)) ∧
     worker_thread_runE 1 1 2 0 1 0 emptyStore =
       .ok (fun s k => if s = 0 ∧ k = 0 ∧ (2 : ℕ) ≠ 0 then
              some (dget (emptyStore 0) 0 + 2) else emptyStore s k) ∧
     worker_process_runE 1 2 0 1 0 1 =
       .ok ((fun s k => if s = 0 ∧ k = 0 then some 2 else none), 0)) :=
  ⟨by decide, writes_only_increment 1 2 1 0 emptyStore (by decide)⟩

lemma domOK_sset (S keys : ℕ) (st : Store) (k0 v : ℕ) (hk : k0 < keys)
    (h : domOK S keys st) : domOK S keys (sset st (k0 % S) k0 v) := by
  intro s k
  by_cases hs : s = k0 % S
  · subst hs
    by_cases hkk : k = k0
    · subst hkk
      simp [sset, dset, hk]
    · have he : sset st (k0 % S) k0 v (k0 % S) k = st (k0 % S) k := by
        simp [sset, dset, hkk]
      rw [he]
      exact h _ _
  · have he : sset st (k0 % S) k0 v s k = st s k := by
      simp [sset, hs]
    rw [he]
    exact h _ _

lemma domOK_prefill (S keys : ℕ) :
    domOK S keys (fun s k => if k < keys ∧ s = k % S then some 0 else none) := by
  intro s k
  by_cases h : k < keys ∧ s = k % S <;> simp [h]

lemma worker_loopE_domOK (S keys : ℕ) (reads : ℤ) (hS : 1 ≤ S) (hK : 1 ≤ keys) :
    ∀ (n : ℕ) (st : Store) (x : ℕ) (st2 : Store),
      domOK S keys st → worker_loopE S keys reads n st x = .ok st2 →
      domOK S keys st2 := by
  intro n
  induction n with
  | zero =>
    intro st x st2 h hl
    rw [worker_loopE_zero] at hl
    injection hl with hl
    rw [← hl]
    exact h
  | succ n ih =>
    intro st x st2 h hl
    rw [worker_loopE_succ, iterStepE_ok S keys reads st x hS hK] at hl
    change worker_loopE S keys reads n
        (specApply S st ((sm64_next x).1 % keys,
           if (((sm64_next (sm64_next x).2).1 % 1000 : ℕ) : ℤ) < reads then OpKind.read
           else OpKind.write))
        ((sm64_next (sm64_next x).2).2) = .ok st2 at hl
    by_cases hc : (((sm64_next (sm64_next x).2).1 % 1000 : ℕ) : ℤ) < reads
    · rw [if_pos hc] at hl
      have hread : specApply S st ((sm64_next x).1 % keys, OpKind.read) = st := rfl
      rw [hread] at hl
      exact ih st _ st2 h hl
    · rw [if_neg hc] at hl
      have hw : specApply S st ((sm64_next x).1 % keys, OpKind.write) =
          sset st (((sm64_next x).1 % keys) % S) ((sm64_next x).1 % keys)
            (dget (st (((sm64_next x).1 % keys) % S)) ((sm64_next x).1 % keys) + 1) := rfl
      rw [hw] at hl
      exact ih _ _ st2 (domOK_sset S keys st _ _ (Nat.mod_lt _ hK) h) hl

/-- C10: with `keys ≥ 1` and `S ≥ 1` every worker-generated key is below
`keys` (it is a draw reduced `% keys`) and was already inserted by prefill:
a store whose key population is exactly the prefilled one keeps exactly that
population through any number of iterations of either model's loop (writes
update existing counters), the process model's run ends with exactly that
population, and the `get(k, 0)` read default is never needed because the
accessed key is always present. -/
theorem key_domain_invariant (S keys : ℕ) (rho : ℚ) (hS : 1 ≤ S) (hK : 1 ≤ keys) :
    (∀ x : ℕ, (sm64_next x).1 % keys < keys) ∧
    (∀ (st : Store) (x : ℕ), domOK S keys st →
       (st (((sm64_next x).1 % keys) % S) ((sm64_next x).1 % keys)).isSome = true) ∧
    (∀ (per seed tid : ℕ) (st st2 : Store), domOK S keys st →
       worker_thread_runE S keys per rho seed tid st = .ok st2 → domOK S keys st2) ∧
    (∀ (per seed pid : ℕ) (r : Store × ℕ),
       worker_process_runE keys per rho seed pid S = .ok r → domOK S keys r.1) := by
  refine ⟨fun x => Nat.mod_lt _ hK, ?_, ?_, ?_⟩
  · intro st x h
    exact (h _ _).mpr ⟨Nat.mod_lt _ hK, rfl⟩
  · intro per seed tid st st2 h hl
    exact worker_loopE_domOK S keys (pyInt (rho * 1000)) hS hK per st
      (sm64_init (seed + tid)) st2 h hl
  · intro per seed pid r hr
    unfold worker_process_runE at hr
    rw [prefillE_ok S keys hS] at hr
    change (match worker_loopE S keys (pyInt (rho * 1000)) per
        (fun s k => if k < keys ∧ s = k % S then some 0 else none)
        (sm64_init (seed + pid)) with
      | Except.error e => Except.error e
      | Except.ok st2 => Except.ok (st2, 0)) = .ok r at hr
    cases hl : worker_loopE S keys (pyInt (rho * 1000)) per
        (fun s k => if k < keys ∧ s = k % S then some 0 else none)
        (sm64_init (seed + pid)) with
    | error e =>
      rw [hl] at hr
      cases hr
    | ok st2 =>
      rw [hl] at hr
      injection hr with hr
      rw [← hr]
      exact worker_loopE_domOK S keys (pyInt (rho * 1000)) hS hK per _ _ st2
        (domOK_prefill S keys) hl

theorem key_domain_invariant_witness :
    (1 ≤ 2 ∧ 1 ≤ 3) ∧
    ((∀ x : ℕ, (sm64_next x).1 % 3 < 3) ∧
     (∀ (st : Store) (x : ℕ), domOK 2 3 st →
        (st (((sm64_next x).1 % 3) % 2) ((sm64_next x).1 % 3)).isSome = true) ∧
     (∀ (per seed tid : ℕ) (st st2 : Store), domOK 2 3 st →
        worker_thread_runE 2 3 per (1 / 2) seed tid st = .ok st2 → domOK 2 3 st2) ∧
     (∀ (per seed pid : ℕ) (r : Store × ℕ),
        worker_process_runE 3 per (1 / 2) seed pid 2 = .ok r → domOK 2 3 r.1)) :=
  ⟨⟨by decide, by decide⟩, key_domain_invariant 2 3 (1 / 2) (by decide) (by decide)⟩

/-- C5: whenever `main` emits a result record, its `iterations` field equals
`worker_count * (total_iterations // worker_count)` with truncating integer
division, in either execution model. -/
theorem reported_iterations_eq (model : String) (threads iterations keys : ℕ)
    (rho : ℚ) (seed S : ℕ) (res : BenchResult)
    (h : mainRun model threads iterations keys rho seed S = .success res) :
    res.iterations = threads * (iterations / threads) := by
  unfold mainRun at h
  split at h
  · exact absurd h (by simp)
  · rename_i per hq
    have hper : per = iterations / threads := by
      unfold pydiv at hq
      by_cases ht : threads = 0
      · rw [if_pos ht] at hq
        cases hq
      · rw [if_neg ht] at hq
        injection hq with hq
        exact hq.symm
    subst hper
    split at h
    · split at h
      · exact absurd h (by simp)
      · injection h with h
        rw [← h]
        simp [mkResult, Nat.mul_comm]
    · split at h
      · split at h
        · exact absurd h (by simp)
        · injection h with h
          rw [← h]
          simp [mkResult, Nat.mul_comm]
      · exact absurd h (by simp)

theorem reported_iterations_eq_witness :
    (mainRun "threads" 3 7 5 (9 / 10) 42 2 =
       .success (mkResult "threads" 3 2 5 (9 / 10) 42)) ∧
    (mkResult "threads" 3 2 5 (9 / 10) 42).iterations = 3 * (7 / 3) ∧
    3 * (7 / 3) = 6 :=
  ⟨by rfl,
   reported_iterations_eq "threads" 3 7 5 (9 / 10) 42 2
     (mkResult "threads" 3 2 5 (9 / 10) 42) (by rfl),
   by decide⟩

/-- C9: an execution model string that is neither "threads" nor "processes"
makes `main` print a diagnostic to stderr and exit with status 1 before any
record is written: the outcome carries exit code 1 and no result record.
(With a zero worker count the run aborts even earlier, computing
`iterations // 0`, again with exit code 1 and no record.) -/
theorem unknown_model_fatal (model : String) (threads iterations keys : ℕ)
    (rho : ℚ) (seed S : ℕ) (h1 : model ≠ "threads") (h2 : model ≠ "processes") :
    exitCode (mainRun model threads iterations keys rho seed S) = 1 ∧
    producesRecord (mainRun model threads iterations keys rho seed S) = false := by
  have hout : ∀ o : MainOutcome, (∃ e, o = .fatal 1 e) →
      exitCode o = 1 ∧ producesRecord o = false := by
    rintro o ⟨e, rfl⟩
    exact ⟨rfl, rfl⟩
  refine hout _ ?_
  unfold mainRun
  split
  · exact ⟨_, rfl⟩
  · rw [if_neg h1, if_neg h2]
    exact ⟨_, rfl⟩

theorem unknown_model_fatal_witness :
    ("gevent" ≠ "threads" ∧ "gevent" ≠ "processes") ∧
    (exitCode (mainRun "gevent" 8 100 10 (9 / 10) 42 64) = 1 ∧
     producesRecord (mainRun "gevent" 8 100 10 (9 / 10) 42 64) = false) :=
  ⟨⟨by decide, by decide⟩,
   unknown_model_fatal "gevent" 8 100 10 (9 / 10) 42 64 (by decide) (by decide)⟩

lemma worker_loopE_zero_keys (S : ℕ) (reads : ℤ) (n : ℕ) (st : Store) (x : ℕ) :
    worker_loopE S 0 reads (n + 1) st x = .error "ZeroDivisionError" := rfl

/-- C8 is refuted on the threads execution model: with key count 0 (and at
least one iteration per worker) the division by zero happens inside the
worker thread, which dies with a `ZeroDivisionError` traceback (third
conjunct), but Python joins the dead thread and the main thread continues:
the invocation still prints a result record and exits 0. -/
theorem zero_keys_threads_emits_record :
    exitCode (mainRun "threads" 1 1 0 (9 / 10) 42 1) = 0 ∧
    producesRecord (mainRun "threads" 1 1 0 (9 / 10) 42 1) = true ∧
    worker_thread_runE 1 0 1 (9 / 10) 42 0 emptyStore = .error "ZeroDivisionError" :=
  ⟨rfl, rfl, rfl⟩

/-- C8 (amended): invalid counts that raise in the main process are fatal —
zero worker count (computing `iterations // 0`), zero key count in the
processes model (each `worker_process` raises and `pool.map` re-raises), and
zero shard count with a nonzero key count during the main thread's prefill —
each exits with status 1 and produces no result record.  But a zero key
count in the threads model raises only inside the worker threads (fourth
conjunct): the main process still emits a result record and exits 0 (third
conjunct). -/
theorem invalid_config_outcomes :
    (∀ (model : String) (iterations keys : ℕ) (rho : ℚ) (seed S : ℕ),
       mainRun model 0 iterations keys rho seed S = .fatal 1 "ZeroDivisionError") ∧
    (∀ (threads iterations : ℕ) (rho : ℚ) (seed S : ℕ),
       1 ≤ threads → threads ≤ iterations →
       mainRun "processes" threads iterations 0 rho seed S =
         .fatal 1 "ZeroDivisionError") ∧
    (∀ (threads iterations : ℕ) (rho : ℚ) (seed S : ℕ),
       1 ≤ threads →
       mainRun "threads" threads iterations 0 rho seed S =
         .success (mkResult "threads" threads (iterations / threads) 0 rho seed)) ∧
    (∀ (S per : ℕ) (rho : ℚ) (seed tid : ℕ) (st : Store),
       1 ≤ per →
       worker_thread_runE S 0 per rho seed tid st = .error "ZeroDivisionError") ∧
    (∀ (threads iterations keys : ℕ) (rho : ℚ) (seed : ℕ),
       1 ≤ threads → 1 ≤ keys →
       mainRun "threads" threads iterations keys rho seed 0 =
         .fatal 1 "ZeroDivisionError") := by
  refine ⟨fun model iterations keys rho seed S => rfl, ?_, ?_, ?_, ?_⟩
  · intro threads iterations rho seed S ht hle
    have hper1 : 1 ≤ iterations / threads := (Nat.one_le_div_iff ht).mpr hle
    obtain ⟨t, rfl⟩ : ∃ t, threads = t + 1 := ⟨threads - 1, by omega⟩
    obtain ⟨m, hm⟩ : ∃ m, iterations / (t + 1) = m + 1 :=
      ⟨iterations / (t + 1) - 1, by omega⟩
    have hw0 : worker_process_runE 0 (iterations / (t + 1)) rho seed 0 S =
        .error "ZeroDivisionError" := by
      unfold worker_process_runE
      change (match worker_loopE S 0 (pyInt (rho * 1000)) (iterations / (t + 1))
          emptyStore (sm64_init (seed + 0)) with
        | Except.error e => Except.error e
        | Except.ok st2 => Except.ok (st2, 0)) = Except.error "ZeroDivisionError"
      rw [hm, worker_loopE_zero_keys]
    change (match firstError ((List.range (t + 1)).map
        (fun i => worker_process_runE 0 (iterations / (t + 1)) rho seed i S)) with
      | some e => MainOutcome.fatal 1 e
      | none => MainOutcome.success
          (mkResult "processes" (t + 1) (iterations / (t + 1)) 0 rho seed)) =
      MainOutcome.fatal 1 "ZeroDivisionError"
    simp only [List.range_succ_eq_map, List.map_cons]
    rw [hw0]
    rfl
  · intro threads iterations rho seed S ht
    obtain ⟨t, rfl⟩ : ∃ t, threads = t + 1 := ⟨threads - 1, by omega⟩
    rfl
  · intro S per rho seed tid st hper
    obtain ⟨m, rfl⟩ : ∃ m, per = m + 1 := ⟨per - 1, by omega⟩
    exact worker_loopE_zero_keys S (pyInt (rho * 1000)) m st (sm64_init (seed + tid))
  · intro threads iterations keys rho seed ht hk
    obtain ⟨t, rfl⟩ : ∃ t, threads = t + 1 := ⟨threads - 1, by omega⟩
    obtain ⟨m, rfl⟩ : ∃ m, keys = m + 1 := ⟨keys - 1, by omega⟩
    have hpre : prefillE 0 (m + 1) = .error "ZeroDivisionError" := by
      unfold prefillE
      rw [List.range_succ_eq_map]
      rfl
    change (match prefillE 0 (m + 1) with
      | Except.error e => MainOutcome.fatal 1 e
      | Except.ok _ => MainOutcome.success
          (mkResult "threads" (t + 1) (iterations / (t + 1)) (m + 1) rho seed)) =
      MainOutcome.fatal 1 "ZeroDivisionError"
    rw [hpre]

theorem invalid_config_outcomes_witness :
    (1 ≤ 1 ∧ 1 ≤ 2) ∧
    mainRun "gevent" 0 5 3 (9 / 10) 42 4 = .fatal 1 "ZeroDivisionError" ∧
    mainRun "processes" 1 1 0 (9 / 10) 42 4 = .fatal 1 "ZeroDivisionError" ∧
    mainRun "threads" 1 1 0 (9 / 10) 42 4 =
      .success (mkResult "threads" 1 (1 / 1) 0 (9 / 10) 42) ∧
    worker_thread_runE 2 0 3 (9 / 10) 42 0 emptyStore = .error "ZeroDivisionError" ∧
    mainRun "threads" 1 1 2 (9 / 10) 42 0 = .fatal 1 "ZeroDivisionError" :=
  ⟨⟨by decide, by decide⟩,
   invalid_config_outcomes.1 "gevent" 5 3 (9 / 10) 42 4,
   invalid_config_outcomes.2.1 1 1 (9 / 10) 42 4 (by decide) (by decide),
   invalid_config_outcomes.2.2.1 1 1 (9 / 10) 42 4 (by decide),
   invalid_config_outcomes.2.2.2.1 2 3 (9 / 10) 42 0 emptyStore (by decide),
   invalid_config_outcomes.2.2.2.2 1 1 2 (9 / 10) 42 (by decide) (by decide)⟩
